import Mathlib

/-!
Verification of the Sentinel endpoint-security daemon.

This file gives a shallow embedding of the daemon sources (scanner.c,
quarantine.c, main.c, threadpool.c, monitor.c, alert.c) and proves or
refutes the specified safety properties.  The filesystem is modelled as a
partial map from absolute paths to permission modes; fallible system calls
take explicit oracle parameters describing their outcome.
-/

namespace Sentinel

/-! ## C string search (strstr) -/

/-- Index of the first occurrence of `needle` inside `hay`, as computed by
the C `strstr` (an empty needle matches at index 0). -/
def firstIdx (needle : List Char) : List Char → Option Nat
  | [] => if needle.isPrefixOf [] then some 0 else none
  | c :: t =>
    if needle.isPrefixOf (c :: t) then some 0
    else (firstIdx needle t).map (· + 1)

theorem firstIdx_isSome_iff {needle hay : List Char} :
    (firstIdx needle hay).isSome ↔ needle <:+: hay := by
  induction hay with
  | nil =>
    cases hp : needle.isPrefixOf ([] : List Char) with
    | true =>
      have hpre : needle <+: [] := List.isPrefixOf_iff_prefix.mp hp
      simp [firstIdx, hp, hpre.isInfix]
    | false =>
      have hne : ¬ needle <:+: ([] : List Char) := by
        intro hinf
        have h0 := List.eq_nil_of_infix_nil hinf
        subst h0
        simp [List.isPrefixOf] at hp
      simp [firstIdx, hp, hne]
  | cons c t ih =>
    cases hp : needle.isPrefixOf (c :: t) with
    | true =>
      have hpre : needle <+: c :: t := List.isPrefixOf_iff_prefix.mp hp
      simp [firstIdx, hp, hpre.isInfix]
    | false =>
      have hnp : ¬ needle <+: c :: t := by
        intro hpre
        have := List.isPrefixOf_iff_prefix.mpr hpre
        rw [this] at hp
        exact Bool.noConfusion hp
      simp only [firstIdx, hp, Bool.false_eq_true, if_false]
      cases hf : firstIdx needle t with
      | some i =>
        simp only [hf, Option.isSome_some, true_iff] at ih
        simp only [hf, Option.map_some']
        simp only [Option.isSome_some, true_iff]
        exact ih.trans (List.suffix_cons c t).isInfix
      | none =>
        simp only [hf, Option.isSome_none, Bool.false_eq_true, false_iff] at ih
        simp only [hf, Option.map_none']
        rw [List.infix_cons_iff]
        simp [hnp, ih]

/-! ## Scanner client (scanner.c) -/

/-- Scan result codes from scanner.h. -/
inductive scan_result_t
  | clean
  | infected
  | error
deriving DecidableEq, Repr

/-- SCANNER_MAX_THREAT_NAME from scanner.h. -/
def SCANNER_MAX_THREAT_NAME : Nat := 256

/-- Detailed scan result from scanner.h; the threat name is kept as the byte
sequence stored in the fixed 256-byte field. -/
structure scan_report_t where
  result : scan_result_t
  threat_name : List Char
deriving DecidableEq, Repr

def tokFOUND : List Char := " FOUND".data
def tokOK : List Char := " OK".data
def tokERROR : List Char := " ERROR".data
def tokCOLON : List Char := ": ".data

/--
Embedding of `scanner_scan_file` (scanner.c lines 106-237) with the socket
I/O abstracted: `transportOk` is false when opening the file, connecting,
or streaming fails (the early `return -1` paths), and `resp` is the byte
sequence read back from clamd.  A `none` result models the `-1` return
(transport failure); `some r` models the `0` return with `*report = r`.
The report is zero-initialised with result `SCAN_RESULT_ERROR`, so a reply
matching none of the three tokens is returned unchanged as an error report.
-/
def scanner_scan_file (transportOk : Bool) (resp : List Char) : Option scan_report_t :=
  if transportOk = false then none
  else if resp.length = 0 then none
  else
    match firstIdx tokFOUND resp with
    | some f =>
      let threat :=
        match firstIdx tokCOLON resp with
        | none => []
        | some c =>
          let start := c + 2
          let len :=
            if start ≤ f then min (f - start) (SCANNER_MAX_THREAT_NAME - 1)
            else SCANNER_MAX_THREAT_NAME - 1
          (resp.drop start).take len
      some ⟨.infected, threat⟩
    | none =>
      if (firstIdx tokOK resp).isSome then some ⟨.clean, []⟩
      else if (firstIdx tokERROR resp).isSome then some ⟨.error, []⟩
      else some ⟨.error, []⟩

/--
Modelled from the spec, section 4.1: locate the tokens; `FOUND` gives
`Infected` with the threat being the substring beginning after the first
`": "` and ending at `" FOUND"`, truncated to 255 bytes; `OK` gives
`Clean`; `ERROR` gives `ScannerError`; absence of all three yields a
transport error (`none`).
-/
def specReplyParse (resp : List Char) : Option scan_report_t :=
  if tokFOUND <:+: resp then
    some ⟨.infected, specThreatName resp⟩
  else if tokOK <:+: resp then some ⟨.clean, []⟩
  else if tokERROR <:+: resp then some ⟨.error, []⟩
  else none
where
  specThreatName (resp : List Char) : List Char :=
    match firstIdx tokCOLON resp, firstIdx tokFOUND resp with
    | some c, some f => ((resp.drop (c + 2)).take (f - (c + 2))).take 255
    | _, _ => []

/--
The amended reply classification: as the spec, except that a nonempty reply
containing none of the three tokens is classified as `ScannerError` (the
pre-initialised default) rather than a transport failure, only an empty
reply is a transport failure, and when the first `": "` begins after
`" FOUND"` the C length computation wraps and up to 255 bytes following the
`": "` are taken.
-/
def amendedReplyParse (resp : List Char) : Option scan_report_t :=
  if resp = [] then none
  else if tokFOUND <:+: resp then some ⟨.infected, amendedThreatName resp⟩
  else if tokOK <:+: resp then some ⟨.clean, []⟩
  else some ⟨.error, []⟩
where
  amendedThreatName (resp : List Char) : List Char :=
    match firstIdx tokCOLON resp, firstIdx tokFOUND resp with
    | some c, some f =>
      if c + 2 ≤ f then (resp.drop (c + 2)).take (min (f - (c + 2)) 255)
      else (resp.drop (c + 2)).take 255
    | _, _ => []

/-- C2 counterexample: the reply `"hello"` contains none of the three
tokens; `scanner_scan_file` returns success with the default
`SCAN_RESULT_ERROR` report (a `ScannerError` verdict), while the claimed
parse demands a transport-level failure. -/
theorem C2_counterexample :
    scanner_scan_file true ("hello".data) = some ⟨scan_result_t.error, []⟩ ∧
    specReplyParse ("hello".data) = none := by
  constructor
  · decide
  · decide

/-- C2 (amended): for every reply read from the scanner socket,
`scanner_scan_file` classifies it exactly as the amended parse: `" FOUND"`
gives Infected with the threat substring after the first `": "` (clamped to
255 bytes, with the wrapped length when `": "` starts after `" FOUND"`),
otherwise `" OK"` gives Clean, otherwise any nonempty reply (with or
without `" ERROR"`) gives ScannerError, and only an empty reply is a
transport failure. -/
theorem C2_amended_parse (resp : List Char) :
    scanner_scan_file true resp = amendedReplyParse resp := by
  unfold scanner_scan_file amendedReplyParse
  simp only [Bool.true_eq_false, if_false]
  by_cases hempty : resp = []
  · subst hempty
    simp
  · have hlen : ¬ resp.length = 0 := by simpa [List.length_eq_zero] using hempty
    simp only [hlen, if_false, hempty, if_false]
    cases hf : firstIdx tokFOUND resp with
    | some f =>
      have hinf : tokFOUND <:+: resp := firstIdx_isSome_iff.mp (by simp [hf])
      simp only [hinf, if_true]
      unfold amendedReplyParse.amendedThreatName
      cases hc : firstIdx tokCOLON resp with
      | none => simp [hf, hc]
      | some c =>
        simp only [hf, hc]
        by_cases hle : c + 2 ≤ f
        · simp [hle, SCANNER_MAX_THREAT_NAME]
        · simp [hle, SCANNER_MAX_THREAT_NAME]
    | none =>
      have hninf : ¬ (tokFOUND <:+: resp) := by
        rw [← firstIdx_isSome_iff, hf]
        simp
      simp only [hninf, if_false]
      cases hok : firstIdx tokOK resp with
      | some k =>
        have hinf : tokOK <:+: resp := firstIdx_isSome_iff.mp (by simp [hok])
        simp [hok, hinf]
      | none =>
        have hninfOK : ¬ (tokOK <:+: resp) := by
          rw [← firstIdx_isSome_iff, hok]
          simp
        simp only [hok, Option.isSome_none, Bool.false_eq_true, if_false, hninfOK]
        cases herr : firstIdx tokERROR resp <;> simp

/-! ## Filesystem model

A filesystem is a partial map from absolute paths to permission modes.
File contents are not modelled; all claims speak about existence and mode. -/

/-- Permission mode bits (st_mode). -/
abbrev Mode := Nat

/-- Filesystem state: `none` means the path does not exist. -/
def FS := String → Option Mode

/-- chmod: succeeds only when the path exists, otherwise it is a no-op
(the C code ignores or merely logs chmod failures in every place we model). -/
def chmodFS (fs : FS) (p : String) (m : Mode) : FS :=
  fun q => if q = p then (fs q).map (fun _ => m) else fs q

/-- Create or replace a file entry. -/
def setFS (fs : FS) (p : String) (m : Mode) : FS :=
  fun q => if q = p then some m else fs q

/-- unlink. -/
def rmFS (fs : FS) (p : String) : FS :=
  fun q => if q = p then none else fs q

/-- rename(2): moves the source over the destination (replacing it), a
no-op when the source does not exist (the call fails). -/
def renameFS (fs : FS) (src dst : String) : FS :=
  match fs src with
  | some m => setFS (rmFS fs src) dst m
  | none => fs

/-- Outcome oracle for one `copy_file` call (quarantine.c lines 117-139):
`ok` is a complete copy (return 0), `openFail` is a failed open of source
or destination (no change to the destination), `writeFail` is a failed
write, after which the destination is unlinked. -/
inductive CopyRes
  | ok
  | openFail
  | writeFail
deriving DecidableEq, Repr

/-- Embedding of `copy_file`: byte-wise copy of `src` over `dst`.  A fresh
destination is created with mode 0600 (O_CREAT third argument); an existing
destination keeps its mode (O_TRUNC does not change modes).  When the
source cannot be opened the call fails with no effect. -/
def copy_file (fs : FS) (src dst : String) (r : CopyRes) : FS × Bool :=
  match fs src with
  | none => (fs, false)
  | some _ =>
    match r with
    | .openFail => (fs, false)
    | .writeFail => (rmFS fs dst, false)
    | .ok => (setFS fs dst ((fs dst).getD 0o600), true)

/-! ## Quarantine store (quarantine.c) -/

def QUARANTINE_DIR : String := "/opt/quarantine"

/-- A manifest record (quarantine.h `quarantine_entry_t` / the JSON entry
fields written by `quarantine_file`). -/
structure quarantine_entry_t where
  id : String
  original_path : String
  quarantine_path : String
  threat_name : String
  timestamp : Nat
deriving DecidableEq, Repr, Inhabited

/-- Quarantine subsystem state: the filesystem and the in-memory manifest
array (the JSON file is a serialisation of the latter). -/
structure QState where
  fs : FS
  man : List quarantine_entry_t

def hexChar (n : Nat) : Char := ("0123456789abcdef".data.getD (n % 16) '0')

/-- Embedding of `generate_uuid` (quarantine.c lines 33-48): an 8-4-4-4-12
hex string built from 32 successive `rand()` draws; `draws` is the list of
values the pseudo-random source returns (absent entries read as 0). -/
def generate_uuid (draws : List Nat) : String :=
  let c : Nat → Char := fun i => hexChar (draws.getD i 0)
  String.mk ((List.range 8).map c
    ++ '-' :: (List.range 4).map (fun i => c (i + 8))
    ++ '-' :: (List.range 4).map (fun i => c (i + 12))
    ++ '-' :: (List.range 4).map (fun i => c (i + 16))
    ++ '-' :: (List.range 12).map (fun i => c (i + 20)))

/-- basename as computed in quarantine.c lines 178-179 (`strrchr` on '/':
everything after the last slash, or the whole path when no slash occurs). -/
def basenameOf (p : String) : String :=
  String.mk ((p.data.reverse.takeWhile (fun c => c ≠ '/')).reverse)

/-- The quarantine destination path `<root>/<id>_<basename>`. -/
def qpathOf (qid base : String) : String :=
  QUARANTINE_DIR ++ "/" ++ qid ++ "_" ++ base

/-- Embedding of `quarantine_file` (quarantine.c lines 161-229).  Oracles:
`draws` feeds `generate_uuid`, `renameOk` is whether the `rename` syscall
succeeds given an existing source (false models EXDEV), `cr` is the
`copy_file` outcome, `now` is `time(NULL)`.  Returns the new state and
whether the call returned 0. -/
def quarantine_file (st : QState) (filepath threat_name : String)
    (draws : List Nat) (renameOk : Bool) (cr : CopyRes) (now : Nat) :
    QState × Bool :=
  let fs1 := chmodFS st.fs filepath 0
  let qid := generate_uuid draws
  let base := basenameOf filepath
  let qp := qpathOf qid base
  if renameOk && (fs1 filepath).isSome then
    let fs2 := renameFS fs1 filepath qp
    let fs3 := chmodFS fs2 qp 0
    (⟨fs3, st.man ++ [⟨qid, filepath, qp, threat_name, now⟩]⟩, true)
  else
    let fs1' := chmodFS fs1 filepath 0o400
    match copy_file fs1' filepath qp cr with
    | (fs2, true) =>
      let fs2' := rmFS fs2 filepath
      let fs3 := chmodFS fs2' qp 0
      (⟨fs3, st.man ++ [⟨qid, filepath, qp, threat_name, now⟩]⟩, true)
    | (fs2, false) => (⟨fs2, st.man⟩, false)

/-- Embedding of `manifest_find` (quarantine.c lines 100-112): index of the
first entry whose id matches. -/
def manifest_find (man : List quarantine_entry_t) (qid : String) : Option Nat :=
  man.findIdx? (fun e => e.id == qid)

/-- Embedding of `quarantine_restore` (quarantine.c lines 231-283). -/
def quarantine_restore (st : QState) (qid : String)
    (renameOk : Bool) (cr : CopyRes) : QState × Bool :=
  match manifest_find st.man qid with
  | none => (st, false)
  | some idx =>
    let e := st.man.getD idx default
    let orig := e.original_path
    let qp := e.quarantine_path
    let fs1 := chmodFS st.fs qp 0o400
    if renameOk && (fs1 qp).isSome then
      let fs2 := renameFS fs1 qp orig
      let fs3 := chmodFS fs2 orig 0o644
      (⟨fs3, st.man.eraseIdx idx⟩, true)
    else
      match copy_file fs1 qp orig cr with
      | (fs2, true) =>
        let fs2' := rmFS fs2 qp
        let fs3 := chmodFS fs2' orig 0o644
        (⟨fs3, st.man.eraseIdx idx⟩, true)
      | (fs2, false) => (⟨chmodFS fs2 qp 0, st.man⟩, false)

/-- Embedding of `quarantine_delete` (quarantine.c lines 285-319). -/
def quarantine_delete (st : QState) (qid : String) : QState × Bool :=
  match manifest_find st.man qid with
  | none => (st, false)
  | some idx =>
    let e := st.man.getD idx default
    let qp := e.quarantine_path
    let fs1 := chmodFS st.fs qp 0o600
    if (fs1 qp).isSome then
      (⟨rmFS fs1 qp, st.man.eraseIdx idx⟩, true)
    else
      (⟨fs1, st.man⟩, false)

/-- snprintf-style truncation into a `cap`-byte field (keeps `cap - 1`
bytes). -/
def strTrunc (cap : Nat) (s : String) : String :=
  String.mk (s.data.take (cap - 1))

/-- Embedding of `quarantine_list` (quarantine.c lines 321-370): a snapshot
copy of the manifest with each field truncated to its fixed-size buffer. -/
def quarantine_list (st : QState) : List quarantine_entry_t :=
  st.man.map (fun e =>
    ⟨strTrunc 64 e.id, strTrunc 4096 e.original_path,
     strTrunc 4096 e.quarantine_path, strTrunc 256 e.threat_name,
     e.timestamp⟩)

/-! ## Reachable manifest states (claim C3) -/

/-- One externally triggered quarantine-store operation, carrying the
outcome oracles of its fallible system calls. -/
inductive QOp
  | quar (p t : String) (draws : List Nat) (rOk : Bool) (cr : CopyRes) (now : Nat)
  | restore (qid : String) (rOk : Bool) (cr : CopyRes)
  | del (qid : String)

def applyOp (st : QState) : QOp → QState
  | .quar p t d r c n => (quarantine_file st p t d r c n).1
  | .restore q r c => (quarantine_restore st q r c).1
  | .del q => (quarantine_delete st q).1

/-- State after a sequence of operations. -/
def runOps (st : QState) (ops : List QOp) : QState :=
  ops.foldl applyOp st

/-- The uuids generated by the quarantine operations of a run, in order. -/
def quarUuids : List QOp → List String
  | [] => []
  | QOp.quar _ _ d _ _ _ :: t => generate_uuid d :: quarUuids t
  | QOp.restore _ _ _ :: t => quarUuids t
  | QOp.del _ :: t => quarUuids t

def csFS0 : FS := fun q =>
  if q = "/a/f" then some 0o644 else if q = "/b/f" then some 0o644 else none

def csOps : List QOp :=
  [.quar "/a/f" "Eicar-Test" [] true .ok 0,
   .quar "/b/f" "Eicar-Test" [] true .ok 0]

/-- C3 counterexample: `generate_uuid` never checks the manifest, so two
quarantine operations whose pseudo-random draws coincide (here the rand
stream returns 0 every time) produce two manifest entries with the same id,
and — the basenames being equal — the same quarantine_path. -/
theorem C3_counterexample :
    ¬ ((runOps ⟨csFS0, []⟩ csOps).man.map quarantine_entry_t.id).Nodup ∧
    ¬ ((runOps ⟨csFS0, []⟩ csOps).man.map quarantine_entry_t.quarantine_path).Nodup := by
  constructor
  · decide
  · decide

/-- Shape of every entry `quarantine_file` creates: a 36-byte id and a
quarantine path of the form `<root>/<id>_<basename>`. -/
def EntryShape (e : quarantine_entry_t) : Prop :=
  e.id.data.length = 36 ∧
  ∃ bn : List Char,
    e.quarantine_path.data = (QUARANTINE_DIR ++ "/").data ++ e.id.data ++ '_' :: bn

theorem generate_uuid_length (d : List Nat) : (generate_uuid d).data.length = 36 := by
  simp [generate_uuid]

theorem qpathOf_data (qid base : String) :
    (qpathOf qid base).data =
      (QUARANTINE_DIR ++ "/").data ++ qid.data ++ '_' :: base.data := by
  simp [qpathOf, String.data_append, List.append_assoc]

theorem shape_qpath_inj {e₁ e₂ : quarantine_entry_t}
    (h₁ : EntryShape e₁) (h₂ : EntryShape e₂)
    (h : e₁.quarantine_path = e₂.quarantine_path) : e₁.id = e₂.id := by
  obtain ⟨hl₁, bn₁, hq₁⟩ := h₁
  obtain ⟨hl₂, bn₂, hq₂⟩ := h₂
  have hd : e₁.quarantine_path.data = e₂.quarantine_path.data := by rw [h]
  rw [hq₁, hq₂, List.append_assoc, List.append_assoc] at hd
  have hmid := List.append_cancel_left hd
  have hinj := List.append_inj hmid (by rw [hl₁, hl₂])
  exact String.ext hinj.1

/-- The manifest invariant: pairwise distinct ids and well-shaped entries. -/
def ManInv (man : List quarantine_entry_t) : Prop :=
  man.Pairwise (fun a b => a.id ≠ b.id) ∧ ∀ e ∈ man, EntryShape e

theorem quarantine_file_man (st : QState) (p t : String) (d : List Nat)
    (r : Bool) (c : CopyRes) (n : Nat) :
    (quarantine_file st p t d r c n).1.man = st.man ∨
    (quarantine_file st p t d r c n).1.man =
      st.man ++ [⟨generate_uuid d, p,
        qpathOf (generate_uuid d) (basenameOf p), t, n⟩] := by
  cases hr : r && ((chmodFS st.fs p 0) p).isSome with
  | true =>
    right
    simp [quarantine_file, hr]
  | false =>
    cases hc : copy_file (chmodFS (chmodFS st.fs p 0) p 0o400) p
        (qpathOf (generate_uuid d) (basenameOf p)) c with
    | mk fs2 b =>
      cases b with
      | true =>
        right
        simp [quarantine_file, hr, hc]
      | false =>
        left
        simp [quarantine_file, hr, hc]

theorem quarantine_restore_man_sublist (st : QState) (q : String)
    (r : Bool) (c : CopyRes) :
    List.Sublist (quarantine_restore st q r c).1.man st.man := by
  unfold quarantine_restore
  cases hf : manifest_find st.man q with
  | none => exact List.Sublist.refl _
  | some idx =>
    dsimp only
    split
    · exact List.eraseIdx_sublist _ _
    · split
      · exact List.eraseIdx_sublist _ _
      · exact List.Sublist.refl _

theorem quarantine_delete_man_sublist (st : QState) (q : String) :
    List.Sublist (quarantine_delete st q).1.man st.man := by
  unfold quarantine_delete
  cases hf : manifest_find st.man q with
  | none => exact List.Sublist.refl _
  | some idx =>
    dsimp only
    split
    · exact List.eraseIdx_sublist _ _
    · exact List.Sublist.refl _

theorem runOps_inv (ops : List QOp) : ∀ st : QState, ManInv st.man →
    (∀ e ∈ st.man, ∀ u ∈ quarUuids ops, e.id ≠ u) →
    (quarUuids ops).Nodup →
    ManInv (runOps st ops).man := by
  induction ops with
  | nil => exact fun st h _ _ => h
  | cons op t ih =>
    intro st hinv hfresh hnodup
    have hstep : runOps st (op :: t) = runOps (applyOp st op) t := rfl
    rw [hstep]
    cases op with
    | quar p th d r c n =>
      have hu : generate_uuid d ∈ quarUuids (QOp.quar p th d r c n :: t) := by
        simp [quarUuids]
      have hnodup' : (quarUuids t).Nodup ∧ generate_uuid d ∉ quarUuids t := by
        have h0 := hnodup
        simp only [quarUuids, List.nodup_cons] at h0
        exact ⟨h0.2, h0.1⟩
      have hmemt : ∀ u, u ∈ quarUuids t →
          u ∈ quarUuids (QOp.quar p th d r c n :: t) := by
        intro u hu0
        simp [quarUuids, hu0]
      rcases quarantine_file_man st p th d r c n with hm | hm
      · refine ih _ ?_ ?_ hnodup'.1
        · show ManInv (applyOp st (QOp.quar p th d r c n)).man
          rw [show (applyOp st (QOp.quar p th d r c n)).man = st.man from hm]
          exact hinv
        · intro e he u hut
          rw [show (applyOp st (QOp.quar p th d r c n)).man = st.man from hm] at he
          exact hfresh e he u (hmemt u hut)
      · refine ih _ ?_ ?_ hnodup'.1
        · constructor
          · rw [show (applyOp st (QOp.quar p th d r c n)).man = _ from hm]
            rw [List.pairwise_append]
            refine ⟨hinv.1, List.pairwise_singleton _ _, ?_⟩
            intro a ha b hb
            simp only [List.mem_singleton] at hb
            subst hb
            exact hfresh a ha _ hu
          · rw [show (applyOp st (QOp.quar p th d r c n)).man = _ from hm]
            intro e he
            rcases List.mem_append.mp he with he | he
            · exact hinv.2 e he
            · simp only [List.mem_singleton] at he
              subst he
              exact ⟨generate_uuid_length d, _, qpathOf_data _ _⟩
        · intro e he u hut
          rw [show (applyOp st (QOp.quar p th d r c n)).man = _ from hm] at he
          rcases List.mem_append.mp he with he | he
          · exact hfresh e he u (hmemt u hut)
          · simp only [List.mem_singleton] at he
            subst he
            show generate_uuid d ≠ u
            intro habs
            rw [← habs] at hut
            exact hnodup'.2 hut
    | restore q r c =>
      have hsub : List.Sublist (applyOp st (QOp.restore q r c)).man st.man :=
        quarantine_restore_man_sublist st q r c
      refine ih _ ⟨hinv.1.sublist hsub, fun e he => hinv.2 e (hsub.subset he)⟩ ?_ ?_
      · intro e he u hut
        exact hfresh e (hsub.subset he) u (by simpa [quarUuids] using hut)
      · simpa [quarUuids] using hnodup
    | del q =>
      have hsub : List.Sublist (applyOp st (QOp.del q)).man st.man :=
        quarantine_delete_man_sublist st q
      refine ih _ ⟨hinv.1.sublist hsub, fun e he => hinv.2 e (hsub.subset he)⟩ ?_ ?_
      · intro e he u hut
        exact hfresh e (hsub.subset he) u (by simpa [quarUuids] using hut)
      · simpa [quarUuids] using hnodup

theorem manInv_nodup {man : List quarantine_entry_t} (h : ManInv man) :
    (man.map quarantine_entry_t.id).Nodup ∧
    (man.map quarantine_entry_t.quarantine_path).Nodup := by
  have hsymm : Symmetric (fun a b : quarantine_entry_t => a.id ≠ b.id) :=
    fun x y hxy heq => hxy heq.symm
  have hforall : ∀ {a b : quarantine_entry_t}, a ∈ man → b ∈ man → a ≠ b →
      a.id ≠ b.id :=
    fun {a b} ha hb hne => List.Pairwise.forall hsymm h.1 ha hb hne
  have hnd : man.Nodup := h.1.imp (fun hab heq => hab (by rw [heq]))
  refine ⟨(List.nodup_map_iff_inj_on hnd).mpr ?_,
          (List.nodup_map_iff_inj_on hnd).mpr ?_⟩
  · intro x hx y hy hxy
    by_contra hne
    exact hforall hx hy hne hxy
  · intro x hx y hy hxy
    by_contra hne
    exact hforall hx hy hne (shape_qpath_inj (h.2 x hx) (h.2 y hy) hxy)

/-- C3 (amended): in every manifest state reachable from an empty manifest
by quarantine, restore and delete operations, PROVIDED the generated uuids
of the run are pairwise distinct (the code relies on rand() collisions
being negligible and performs no collision check), no two entries share an
id and no two entries share a quarantine_path. -/
theorem C3_amended (fs0 : FS) (ops : List QOp)
    (h : (quarUuids ops).Nodup) :
    ((runOps ⟨fs0, []⟩ ops).man.map quarantine_entry_t.id).Nodup ∧
    ((runOps ⟨fs0, []⟩ ops).man.map quarantine_entry_t.quarantine_path).Nodup := by
  have hinv : ManInv (runOps ⟨fs0, []⟩ ops).man := by
    refine runOps_inv ops ⟨fs0, []⟩ ?_ ?_ h
    · exact ⟨List.Pairwise.nil, by intro e he; cases he⟩
    · intro e he; cases he
  exact manInv_nodup hinv

def csOps2 : List QOp :=
  [.quar "/a/f" "Eicar-Test" (List.replicate 32 1) true .ok 0,
   .quar "/b/f" "Eicar-Test" [] true .ok 0]

/-- C3 witness: a concrete two-quarantine run with distinct uuids in which
the amended uniqueness invariant holds. -/
theorem C3_witness :
    (quarUuids csOps2).Nodup ∧
    (((runOps ⟨csFS0, []⟩ csOps2).man.map quarantine_entry_t.id).Nodup ∧
     ((runOps ⟨csFS0, []⟩ csOps2).man.map quarantine_entry_t.quarantine_path).Nodup) :=
  ⟨by decide, C3_amended csFS0 csOps2 (by decide)⟩

/-! ## Pointwise filesystem lemmas -/

theorem chmodFS_at (fs : FS) (p : String) (m : Mode) :
    chmodFS fs p m p = (fs p).map (fun _ => m) := by
  simp [chmodFS]

theorem chmodFS_ne (fs : FS) (p : String) (m : Mode) {x : String} (hx : x ≠ p) :
    chmodFS fs p m x = fs x := by
  simp [chmodFS, hx]

theorem setFS_at (fs : FS) (p : String) (m : Mode) : setFS fs p m p = some m := by
  simp [setFS]

theorem setFS_ne (fs : FS) (p : String) (m : Mode) {x : String} (hx : x ≠ p) :
    setFS fs p m x = fs x := by
  simp [setFS, hx]

theorem rmFS_at (fs : FS) (p : String) : rmFS fs p p = none := by
  simp [rmFS]

theorem rmFS_ne (fs : FS) (p : String) {x : String} (hx : x ≠ p) :
    rmFS fs p x = fs x := by
  simp [rmFS, hx]

theorem renameFS_eq {fs : FS} {src : String} {m : Mode} (h : fs src = some m)
    (dst : String) : renameFS fs src dst = setFS (rmFS fs src) dst m := by
  simp [renameFS, h]

/-! ## List helpers for the manifest -/

theorem findIdx?_append_last {α : Type} {p : α → Bool} {l : List α}
    (h : ∀ e ∈ l, p e = false) (a : α) :
    List.findIdx? p (l ++ [a]) = if p a then some l.length else none := by
  induction l with
  | nil =>
    cases hpa : p a <;> simp [List.findIdx?_cons, hpa]
  | cons x xs ih =>
    have hx : p x = false := h x (by simp)
    have ih' := ih (fun e he => h e (by simp [he]))
    cases hpa : p a <;>
      simp [List.findIdx?_cons, hx, ih', hpa]

theorem eraseIdx_append_last {α : Type} (l : List α) (a : α) :
    (l ++ [a]).eraseIdx l.length = l := by
  induction l with
  | nil => rfl
  | cons x xs ih => simp [List.eraseIdx, ih]

theorem getD_append_last {α : Type} (l : List α) (a d : α) :
    (l ++ [a]).getD l.length d = a := by
  induction l with
  | nil => rfl
  | cons x xs ih => simp [List.getD] at ih ⊢

/-! ## The original path of a file is never its own quarantine path -/

theorem basename_no_slash (p : String) : ∀ c ∈ (basenameOf p).data, c ≠ '/' := by
  intro c hc
  simp only [basenameOf, List.mem_reverse] at hc
  have := List.mem_takeWhile_imp hc
  simpa using this

theorem hexChar_ne_slash (n : Nat) : hexChar n ≠ '/' := by
  have h : n % 16 < 16 := Nat.mod_lt _ (by norm_num)
  unfold hexChar
  generalize n % 16 = k at h ⊢
  interval_cases k <;> decide

theorem uuid_no_slash (d : List Nat) : ∀ c ∈ (generate_uuid d).data, c ≠ '/' := by
  intro c hc heq
  subst heq
  simp [generate_uuid, hexChar_ne_slash] at hc

theorem takeWhile_append_all {p : Char → Bool} {l₁ l₂ : List Char}
    (h : ∀ c ∈ l₁, p c = true) :
    (l₁ ++ l₂).takeWhile p = l₁ ++ l₂.takeWhile p := by
  induction l₁ with
  | nil => rfl
  | cons x xs ih =>
    have hx : p x = true := h x (by simp)
    simp [List.takeWhile_cons, hx, ih (fun c hc => h c (by simp [hc]))]

theorem basenameOf_concat {X Y : List Char} (hY : ∀ c ∈ Y, c ≠ '/') :
    basenameOf (String.mk (X ++ '/' :: Y)) = String.mk Y := by
  unfold basenameOf
  have h1 : (X ++ '/' :: Y).reverse = Y.reverse ++ '/' :: X.reverse := by
    simp [List.reverse_append]
  have h2 : ∀ c ∈ Y.reverse, (fun c => decide (c ≠ '/')) c = true := by
    intro c hc
    simp only [List.mem_reverse] at hc
    simp [hY c hc]
  have h3 : (Y.reverse ++ '/' :: X.reverse).takeWhile
      (fun c => decide (c ≠ '/')) = Y.reverse := by
    rw [takeWhile_append_all h2]
    simp [List.takeWhile_cons]
  simp only [h1]
  rw [h3, List.reverse_reverse]

theorem qpathOf_as_concat (qid bn : String) :
    qpathOf qid bn = String.mk ("/opt/quarantine".data ++ '/' ::
      (qid.data ++ '_' :: bn.data)) := by
  apply String.ext
  rw [qpathOf_data]
  simp [QUARANTINE_DIR, String.data_append]

theorem p_ne_qpath (p qid : String) (hq : ∀ c ∈ qid.data, c ≠ '/') :
    p ≠ qpathOf qid (basenameOf p) := by
  intro hp
  have hY : ∀ c ∈ qid.data ++ '_' :: (basenameOf p).data, c ≠ '/' := by
    intro c hc
    rcases List.mem_append.mp hc with hc | hc
    · exact hq c hc
    · rcases List.mem_cons.mp hc with rfl | hc
      · decide
      · exact basename_no_slash p c hc
  have hbn : basenameOf p = String.mk (qid.data ++ '_' :: (basenameOf p).data) := by
    conv_lhs => rw [hp, qpathOf_as_concat]
    exact basenameOf_concat hY
  have hlen := congrArg (fun s : String => s.data.length) hbn
  simp at hlen
  omega

/-! ## Quarantine round trip (claims C4 and C5) -/

theorem quarantine_file_success
    (st : QState) (p t : String) (d : List Nat) (rOk : Bool) (cr : CopyRes)
    (now : Nat) (hq : (quarantine_file st p t d rOk cr now).2 = true) :
    (quarantine_file st p t d rOk cr now).1.man =
      st.man ++ [⟨generate_uuid d, p, qpathOf (generate_uuid d) (basenameOf p),
        t, now⟩] ∧
    (quarantine_file st p t d rOk cr now).1.fs
      (qpathOf (generate_uuid d) (basenameOf p)) = some 0 ∧
    (quarantine_file st p t d rOk cr now).1.fs p = none := by
  have hpq : p ≠ qpathOf (generate_uuid d) (basenameOf p) :=
    p_ne_qpath p (generate_uuid d) (uuid_no_slash d)
  cases hr : rOk && ((chmodFS st.fs p 0) p).isSome with
  | true =>
    obtain ⟨m0, hm0⟩ : ∃ m0, st.fs p = some m0 := by
      have h1 := (Bool.and_eq_true _ _).mp hr |>.2
      rw [chmodFS_at] at h1
      cases hfs : st.fs p with
      | none => rw [hfs] at h1; simp at h1
      | some m0 => exact ⟨m0, rfl⟩
    have hfs1 : (chmodFS st.fs p 0) p = some 0 := by
      rw [chmodFS_at, hm0]; rfl
    refine ⟨by simp [quarantine_file, hr], ?_, ?_⟩
    · simp only [quarantine_file, hr, if_true]
      rw [renameFS_eq hfs1, chmodFS_at, setFS_at]
      rfl
    · simp only [quarantine_file, hr, if_true]
      rw [renameFS_eq hfs1, chmodFS_ne _ _ _ hpq, setFS_ne _ _ _ hpq, rmFS_at]
  | false =>
    cases hc : copy_file (chmodFS (chmodFS st.fs p 0) p 0o400) p
        (qpathOf (generate_uuid d) (basenameOf p)) cr with
    | mk fs2 b =>
      cases b with
      | false => simp [quarantine_file, hr, hc] at hq
      | true =>
        have hcopy : (copy_file (chmodFS (chmodFS st.fs p 0) p 0o400) p
            (qpathOf (generate_uuid d) (basenameOf p)) cr).2 = true := by
          rw [hc]
        have hfs2 : fs2 = setFS (chmodFS (chmodFS st.fs p 0) p 0o400)
            (qpathOf (generate_uuid d) (basenameOf p))
            (((chmodFS (chmodFS st.fs p 0) p 0o400)
              (qpathOf (generate_uuid d) (basenameOf p))).getD 0o600) := by
          unfold copy_file at hc
          cases hsrc : (chmodFS (chmodFS st.fs p 0) p 0o400) p with
          | none => rw [hsrc] at hc; simp at hc
          | some ms =>
            rw [hsrc] at hc
            cases cr with
            | openFail => simp at hc
            | writeFail => simp at hc
            | ok => simp at hc; exact hc.symm
        refine ⟨by simp [quarantine_file, hr, hc], ?_, ?_⟩
        · simp only [quarantine_file, hr, Bool.false_eq_true, if_false, hc]
          rw [chmodFS_at, rmFS_ne _ _ (Ne.symm hpq), hfs2, setFS_at]
          rfl
        · simp only [quarantine_file, hr, Bool.false_eq_true, if_false, hc]
          rw [chmodFS_ne _ _ _ hpq, rmFS_at]

theorem restore_after (st1 : QState) (qid p qp t : String) (now : Nat)
    (man0 : List quarantine_entry_t) (mq : Mode)
    (hman : st1.man = man0 ++ [⟨qid, p, qp, t, now⟩])
    (hfresh : ∀ e ∈ man0, e.id ≠ qid)
    (hqp : st1.fs qp = some mq)
    (hpq : p ≠ qp)
    (rOk2 : Bool) (cr2 : CopyRes)
    (hr : (quarantine_restore st1 qid rOk2 cr2).2 = true) :
    (quarantine_restore st1 qid rOk2 cr2).1.fs p = some 0o644 ∧
    (quarantine_restore st1 qid rOk2 cr2).1.man = man0 := by
  have hfind : manifest_find st1.man qid = some man0.length := by
    rw [hman]
    unfold manifest_find
    rw [findIdx?_append_last (fun e he => by
      simpa using hfresh e he)]
    simp
  have hget2 : st1.man[man0.length]? =
      some (⟨qid, p, qp, t, now⟩ : quarantine_entry_t) := by
    rw [hman]
    exact List.getElem?_concat_length _ _
  have hgetD : st1.man.getD man0.length default =
      (⟨qid, p, qp, t, now⟩ : quarantine_entry_t) := by
    rw [hman, getD_append_last]
  have herase : st1.man.eraseIdx man0.length = man0 := by
    rw [hman, eraseIdx_append_last]
  have hfs1 : (chmodFS st1.fs qp 0o400) qp = some 0o400 := by
    rw [chmodFS_at, hqp]; rfl
  cases rOk2 with
  | true =>
    have key : quarantine_restore st1 qid true cr2 =
        (⟨chmodFS (renameFS (chmodFS st1.fs qp 0o400) qp p) p 0o644,
          man0⟩, true) := by
      simp [quarantine_restore, hfind, hget2, hgetD, hfs1, herase]
    rw [key]
    constructor
    · show chmodFS (renameFS (chmodFS st1.fs qp 0o400) qp p) p 0o644 p = _
      rw [renameFS_eq hfs1, chmodFS_at, setFS_at]
      rfl
    · rfl
  | false =>
    cases hc : copy_file (chmodFS st1.fs qp 0o400) qp p cr2 with
    | mk fs2 b =>
      cases b with
      | false =>
        exfalso
        have key : (quarantine_restore st1 qid false cr2).2 = false := by
          simp [quarantine_restore, hfind, hget2, hgetD, hfs1, hc]
        rw [key] at hr
        exact Bool.noConfusion hr
      | true =>
        have hfs2 : fs2 = setFS (chmodFS st1.fs qp 0o400) p
            (((chmodFS st1.fs qp 0o400) p).getD 0o600) := by
          unfold copy_file at hc
          rw [hfs1] at hc
          cases cr2 with
          | openFail => simp at hc
          | writeFail => simp at hc
          | ok => simp at hc; exact hc.symm
        have key : quarantine_restore st1 qid false cr2 =
            (⟨chmodFS (rmFS fs2 qp) p 0o644, man0⟩, true) := by
          simp [quarantine_restore, hfind, hget2, hgetD, hfs1, hc, herase]
        rw [key]
        constructor
        · show chmodFS (rmFS fs2 qp) p 0o644 p = _
          rw [chmodFS_at, rmFS_ne _ _ hpq, hfs2, setFS_at]
          rfl
        · rfl

theorem delete_after (st1 : QState) (qid p qp t : String) (now : Nat)
    (man0 : List quarantine_entry_t) (mq : Mode)
    (hman : st1.man = man0 ++ [⟨qid, p, qp, t, now⟩])
    (hfresh : ∀ e ∈ man0, e.id ≠ qid)
    (hqp : st1.fs qp = some mq)
    (hp : st1.fs p = none)
    (hpq : p ≠ qp) :
    (quarantine_delete st1 qid).2 = true ∧
    (quarantine_delete st1 qid).1.fs p = none ∧
    (quarantine_delete st1 qid).1.fs qp = none ∧
    (quarantine_delete st1 qid).1.man = man0 := by
  have hfind : manifest_find st1.man qid = some man0.length := by
    rw [hman]
    unfold manifest_find
    rw [findIdx?_append_last (fun e he => by
      simpa using hfresh e he)]
    simp
  have hget2 : st1.man[man0.length]? =
      some (⟨qid, p, qp, t, now⟩ : quarantine_entry_t) := by
    rw [hman]
    exact List.getElem?_concat_length _ _
  have hgetD : st1.man.getD man0.length default =
      (⟨qid, p, qp, t, now⟩ : quarantine_entry_t) := by
    rw [hman, getD_append_last]
  have herase : st1.man.eraseIdx man0.length = man0 := by
    rw [hman, eraseIdx_append_last]
  have hfs1 : (chmodFS st1.fs qp 0o600) qp = some 0o600 := by
    rw [chmodFS_at, hqp]; rfl
  have key : quarantine_delete st1 qid =
      (⟨rmFS (chmodFS st1.fs qp 0o600) qp, man0⟩, true) := by
    simp [quarantine_delete, hfind, hget2, hgetD, hfs1, herase]
  rw [key]
  refine ⟨rfl, ?_, ?_, rfl⟩
  · show rmFS (chmodFS st1.fs qp 0o600) qp p = none
    rw [rmFS_ne _ _ hpq, chmodFS_ne _ _ _ hpq]
    exact hp
  · show rmFS (chmodFS st1.fs qp 0o600) qp qp = none
    rw [rmFS_at]
theorem C4_round_trip
    (st : QState) (p t : String) (d : List Nat) (rOk : Bool) (cr : CopyRes)
    (now : Nat) (rOk2 : Bool) (cr2 : CopyRes)
    (hfresh : ∀ e ∈ st.man, e.id ≠ generate_uuid d)
    (hq : (quarantine_file st p t d rOk cr now).2 = true) :
    ((quarantine_restore (quarantine_file st p t d rOk cr now).1
        (generate_uuid d) rOk2 cr2).2 = true →
      (quarantine_restore (quarantine_file st p t d rOk cr now).1
        (generate_uuid d) rOk2 cr2).1.fs p = some 0o644 ∧
      ∀ e ∈ (quarantine_restore (quarantine_file st p t d rOk cr now).1
        (generate_uuid d) rOk2 cr2).1.man, e.id ≠ generate_uuid d) ∧
    ((quarantine_delete (quarantine_file st p t d rOk cr now).1
        (generate_uuid d)).2 = true ∧
      (quarantine_delete (quarantine_file st p t d rOk cr now).1
        (generate_uuid d)).1.fs p = none ∧
      (quarantine_delete (quarantine_file st p t d rOk cr now).1
        (generate_uuid d)).1.fs
          (qpathOf (generate_uuid d) (basenameOf p)) = none ∧
      ∀ e ∈ (quarantine_delete (quarantine_file st p t d rOk cr now).1
        (generate_uuid d)).1.man, e.id ≠ generate_uuid d) := by
  obtain ⟨hman, hqp, hp⟩ := quarantine_file_success st p t d rOk cr now hq
  have hpq : p ≠ qpathOf (generate_uuid d) (basenameOf p) :=
    p_ne_qpath p (generate_uuid d) (uuid_no_slash d)
  constructor
  · intro hr
    obtain ⟨h1, h2⟩ := restore_after (quarantine_file st p t d rOk cr now).1
      (generate_uuid d) p (qpathOf (generate_uuid d) (basenameOf p)) t now
      st.man 0 hman hfresh hqp hpq rOk2 cr2 hr
    exact ⟨h1, by rw [h2]; exact hfresh⟩
  · obtain ⟨h0, h1, h2, h3⟩ := delete_after (quarantine_file st p t d rOk cr now).1
      (generate_uuid d) p (qpathOf (generate_uuid d) (basenameOf p)) t now
      st.man 0 hman hfresh hqp hp hpq
    exact ⟨h0, h1, h2, by rw [h3]; exact hfresh⟩

def c4FS0 : FS := fun q => if q = "/tmp/evil" then some 0o755 else none

def c4St0 : QState := ⟨c4FS0, []⟩

/-- C4 witness: the round trip at a concrete file and oracle choice. -/
theorem C4_witness :
    (quarantine_file c4St0 "/tmp/evil" "Eicar" [] true .ok 7).2 = true ∧
    ((quarantine_restore (quarantine_file c4St0 "/tmp/evil" "Eicar" [] true .ok 7).1
        (generate_uuid []) true .ok).2 = true →
      (quarantine_restore (quarantine_file c4St0 "/tmp/evil" "Eicar" [] true .ok 7).1
        (generate_uuid []) true .ok).1.fs "/tmp/evil" = some 0o644 ∧
      ∀ e ∈ (quarantine_restore (quarantine_file c4St0 "/tmp/evil" "Eicar" [] true .ok 7).1
        (generate_uuid []) true .ok).1.man, e.id ≠ generate_uuid []) := by
  have h := C4_round_trip c4St0 "/tmp/evil" "Eicar" [] true .ok 7 true .ok
    (fun e he => absurd he (List.not_mem_nil e)) (by decide)
  exact ⟨by decide, h.1⟩

/-- Manifest preservation on any failing restore. -/
theorem restore_fail_man (st : QState) (qid : String) (rOk : Bool) (cr : CopyRes)
    (hfail : (quarantine_restore st qid rOk cr).2 = false) :
    (quarantine_restore st qid rOk cr).1.man = st.man := by
  cases hf : manifest_find st.man qid with
  | none => simp [quarantine_restore, hf]
  | some idx =>
    have hlt : idx < st.man.length :=
      (List.findIdx?_eq_some_iff_getElem.mp hf).1
    have hget2 : st.man[idx]? = some (st.man[idx]) :=
      List.getElem?_eq_getElem hlt
    cases hb : rOk && ((chmodFS st.fs (st.man[idx]).quarantine_path
        0o400) (st.man[idx]).quarantine_path).isSome with
    | true =>
      exfalso
      have hb2 := hb
      rw [Bool.and_eq_true] at hb2
      have hkey : (quarantine_restore st qid rOk cr).2 = true := by
        simp [quarantine_restore, hf, hget2, hb2.1, hb2.2]
      rw [hkey] at hfail
      exact Bool.noConfusion hfail
    | false =>
      have hb2 : ¬ (rOk = true ∧ (chmodFS st.fs (st.man[idx]).quarantine_path
          0o400 (st.man[idx]).quarantine_path).isSome = true) := by
        rw [← Bool.and_eq_true, hb]
        simp
      cases hc : copy_file (chmodFS st.fs
          (st.man[idx]).quarantine_path 0o400)
          (st.man[idx]).quarantine_path
          (st.man[idx]).original_path cr with
      | mk fs2 b =>
        cases b with
        | true =>
          exfalso
          have hkey : (quarantine_restore st qid rOk cr).2 = true := by
            simp [quarantine_restore, hf, hget2, hb2, hc]
          rw [hkey] at hfail
          exact Bool.noConfusion hfail
        | false =>
          simp [quarantine_restore, hf, hget2, hb2, hc]

/-- C5: a restore whose rename and copy fallback both fail returns an
error, re-locks the quarantined file at mode 0000, and leaves the manifest
untouched (same list, no entry removed, nothing rewritten).  The inequality
hypothesis records that the entry original path differs from its
quarantine path, which holds for every entry `quarantine_file` creates. -/
theorem C5_restore_failure
    (st : QState) (qid : String) (rOk : Bool) (cr : CopyRes) (idx : Nat)
    (hfind : manifest_find st.man qid = some idx)
    (hne : (st.man.getD idx default).original_path ≠
      (st.man.getD idx default).quarantine_path)
    (hfail : (quarantine_restore st qid rOk cr).2 = false) :
    (quarantine_restore st qid rOk cr).1.man = st.man ∧
    ∀ m, st.fs (st.man.getD idx default).quarantine_path = some m →
      (quarantine_restore st qid rOk cr).1.fs
        (st.man.getD idx default).quarantine_path = some 0 := by
  have hlt : idx < st.man.length := by
    have h0 := (List.findIdx?_eq_some_iff_getElem.mp hfind)
    exact h0.1
  have hget2 : st.man[idx]? = some (st.man[idx]) :=
    List.getElem?_eq_getElem hlt
  have hgetD : st.man.getD idx default = st.man[idx] := by
    simp [List.getD, hget2]
  rw [hgetD] at hne ⊢
  refine ⟨restore_fail_man st qid rOk cr hfail, ?_⟩
  intro m hm
  have hfs1 : (chmodFS st.fs (st.man[idx]).quarantine_path 0o400)
      (st.man[idx]).quarantine_path = some 0o400 := by
    rw [chmodFS_at, hm]; rfl
  cases hrb : rOk with
  | true =>
    exfalso
    have hkey : (quarantine_restore st qid true cr).2 = true := by
      simp [quarantine_restore, hfind, hget2, hgetD, hfs1]
    rw [hrb] at hfail
    rw [hkey] at hfail
    exact Bool.noConfusion hfail
  | false =>
    subst hrb
    cases cr with
    | ok =>
      exfalso
      have hkey : (quarantine_restore st qid false .ok).2 = true := by
        have hc : copy_file (chmodFS st.fs (st.man[idx]).quarantine_path 0o400)
            (st.man[idx]).quarantine_path (st.man[idx]).original_path .ok =
            (setFS (chmodFS st.fs (st.man[idx]).quarantine_path 0o400)
              (st.man[idx]).original_path
              (((chmodFS st.fs (st.man[idx]).quarantine_path 0o400)
                (st.man[idx]).original_path).getD 0o600), true) := by
          unfold copy_file
          rw [hfs1]
        simp [quarantine_restore, hfind, hget2, hgetD, hc]
      rw [hkey] at hfail
      exact Bool.noConfusion hfail
    | openFail =>
      have hc : copy_file (chmodFS st.fs (st.man[idx]).quarantine_path 0o400)
          (st.man[idx]).quarantine_path (st.man[idx]).original_path .openFail =
          (chmodFS st.fs (st.man[idx]).quarantine_path 0o400, false) := by
        unfold copy_file
        rw [hfs1]
      have hkey : (quarantine_restore st qid false .openFail).1.fs
          (st.man[idx]).quarantine_path =
          (chmodFS (chmodFS st.fs (st.man[idx]).quarantine_path 0o400)
            (st.man[idx]).quarantine_path 0) (st.man[idx]).quarantine_path := by
        simp [quarantine_restore, hfind, hget2, hgetD, hc]
      rw [hkey, chmodFS_at, hfs1]
      rfl
    | writeFail =>
      have hc : copy_file (chmodFS st.fs (st.man[idx]).quarantine_path 0o400)
          (st.man[idx]).quarantine_path (st.man[idx]).original_path .writeFail =
          (rmFS (chmodFS st.fs (st.man[idx]).quarantine_path 0o400)
            (st.man[idx]).original_path, false) := by
        unfold copy_file
        rw [hfs1]
      have hkey : (quarantine_restore st qid false .writeFail).1.fs
          (st.man[idx]).quarantine_path =
          (chmodFS (rmFS (chmodFS st.fs (st.man[idx]).quarantine_path 0o400)
            (st.man[idx]).original_path)
            (st.man[idx]).quarantine_path 0) (st.man[idx]).quarantine_path := by
        simp [quarantine_restore, hfind, hget2, hgetD, hc]
      rw [hkey, chmodFS_at, rmFS_ne _ _ (Ne.symm hne), hfs1]
      rfl
def c5FS0 : FS := fun q => if q = "/opt/quarantine/u_f" then some 0 else none

def c5Man0 : List quarantine_entry_t :=
  [⟨"u", "/home/f", "/opt/quarantine/u_f", "Eicar", 3⟩]

/-- C5 witness: a concrete failing restore (rename refused, copy write
fails) keeps the entry and re-locks the quarantined file at 0000. -/
theorem C5_witness :
    (quarantine_restore ⟨c5FS0, c5Man0⟩ "u" false .writeFail).1.man = c5Man0 ∧
    (quarantine_restore ⟨c5FS0, c5Man0⟩ "u" false .writeFail).1.fs
      "/opt/quarantine/u_f" = some 0 := by
  have h := C5_restore_failure ⟨c5FS0, c5Man0⟩ "u" false .writeFail 0
    (by decide) (by decide) (by decide)
  exact ⟨h.1, h.2 0 (by decide)⟩

/-! ## Scan worker pipeline (main.c, claim C1) -/

/-- SCAN_MAX_RETRIES from main.c. -/
def SCAN_MAX_RETRIES : Nat := 3

/-- Outcome of the retry loop in `scan_worker` (main.c lines 132-161). -/
inductive LoopOut
  | vanished
  | got (r : scan_report_t)
  | exhausted
deriving DecidableEq, Repr

/-- The retry loop of `scan_worker`: attempts are numbered from `attempt`;
`remaining` counts the loop iterations left (the C loop runs for
`attempt = 0 .. SCAN_MAX_RETRIES`).  Before every retry (attempt > 0) the
loop stats the file and bails out if it vanished; `scan i` is the outcome
of `scanner_scan_file` on attempt `i` (`none` is the `-1` transport
failure return). -/
def scanAttemptLoop (scan : Nat → Option scan_report_t) (fs : FS) (p : String) :
    Nat → Nat → LoopOut
  | _, 0 => .exhausted
  | attempt, remaining + 1 =>
    if attempt > 0 ∧ fs p = none then .vanished
    else
      match scan attempt with
      | some r => .got r
      | none => scanAttemptLoop scan fs p (attempt + 1) remaining

/-- Terminal states of one `scan_worker` execution. -/
inductive WorkerExit
  | vanished
  | lockdown
  | clean
  | quarantined
  | quarantineLocked
  | scanErrorLocked
deriving DecidableEq, Repr

/-- Oracle bundle for one `scan_worker` run: per-attempt scanner outcomes
and the oracles of a possible `quarantine_file` call. -/
structure WorkerOracle where
  scan : Nat → Option scan_report_t
  draws : List Nat
  renameOk : Bool
  cr : CopyRes
  now : Nat

/-- Embedding of `scan_worker` (main.c lines 99-231): save the original
mode (0644 fallback when stat fails), strip the execute bits, run the
retry loop, then dispatch on the verdict: clean restores the original
mode, infected quarantines (locking at 0000 when quarantine fails), a
scanner ERROR verdict locks at 0000, and exhausted retries lock at 0000
(the fail-closed LOCKDOWN). -/
def scan_worker (st : QState) (p : String) (o : WorkerOracle) :
    QState × WorkerExit :=
  let origMode := (st.fs p).getD 0o644
  let noexec := origMode - Nat.land origMode 0o111
  let fs1 := if noexec ≠ origMode then chmodFS st.fs p noexec else st.fs
  match scanAttemptLoop o.scan fs1 p 0 (SCAN_MAX_RETRIES + 1) with
  | .vanished => (⟨fs1, st.man⟩, .vanished)
  | .exhausted => (⟨chmodFS fs1 p 0, st.man⟩, .lockdown)
  | .got r =>
    match r.result with
    | .clean => (⟨chmodFS fs1 p origMode, st.man⟩, .clean)
    | .infected =>
      match quarantine_file ⟨fs1, st.man⟩ p (String.mk r.threat_name)
          o.draws o.renameOk o.cr o.now with
      | (st2, true) => (st2, .quarantined)
      | (st2, false) => (⟨chmodFS st2.fs p 0, st2.man⟩, .quarantineLocked)
    | .error => (⟨chmodFS fs1 p 0, st.man⟩, .scanErrorLocked)

/-- C1: if the scanner transport fails on all `SCAN_MAX_RETRIES + 1 = 4`
attempts and the file exists (so every pre-retry existence check passes),
`scan_worker` takes the lockdown exit and the file ends with mode 0000 at
its original path; the lockdown branch never restores the original mode. -/
theorem C1_lockdown (st : QState) (p : String) (o : WorkerOracle) (m : Mode)
    (hex : st.fs p = some m)
    (hfail : ∀ i, i ≤ SCAN_MAX_RETRIES → o.scan i = none) :
    (scan_worker st p o).1.fs p = some 0 ∧
    (scan_worker st p o).2 = WorkerExit.lockdown := by
  have hfs1 : ∃ m1, (if (m - Nat.land m 0o111) ≠ m
      then chmodFS st.fs p (m - Nat.land m 0o111) else st.fs) p = some m1 := by
    split
    · exact ⟨m - Nat.land m 0o111, by rw [chmodFS_at, hex]; rfl⟩
    · exact ⟨m, hex⟩
  obtain ⟨m1, hm1⟩ := hfs1
  have horig : (st.fs p).getD 0o644 = m := by rw [hex]; rfl
  have hloop : ∀ attempt remaining, attempt + remaining = 4 →
      scanAttemptLoop o.scan
        (if (m - Nat.land m 0o111) ≠ m
          then chmodFS st.fs p (m - Nat.land m 0o111) else st.fs) p
        attempt remaining = LoopOut.exhausted := by
    intro attempt remaining
    induction remaining generalizing attempt with
    | zero => intro _; rfl
    | succ k ih =>
      intro hsum
      have hscan : o.scan attempt = none := hfail attempt (by
        rw [show SCAN_MAX_RETRIES = 3 from rfl]
        omega)
      have hne : ¬ (attempt > 0 ∧ (if (m - Nat.land m 0o111) ≠ m
          then chmodFS st.fs p (m - Nat.land m 0o111) else st.fs) p = none) := by
        intro ⟨_, habs⟩
        rw [hm1] at habs
        exact Option.noConfusion habs
      rw [scanAttemptLoop, if_neg hne, hscan]
      exact ih (attempt + 1) (by omega)
  have hloop0 := hloop 0 4 rfl
  constructor
  · simp only [scan_worker, horig]
    rw [show SCAN_MAX_RETRIES + 1 = 4 from rfl, hloop0]
    dsimp only
    rw [chmodFS_at, hm1]
    rfl
  · simp only [scan_worker, horig]
    rw [show SCAN_MAX_RETRIES + 1 = 4 from rfl, hloop0]

def c1FS0 : FS := fun q => if q = "/tmp/w/x.bin" then some 0o755 else none

def c1Oracle : WorkerOracle :=
  ⟨fun _ => none, [], true, .ok, 0⟩

/-- C1 witness: a concrete run with the scanner down on all four attempts
locks the file at 0000. -/
theorem C1_witness :
    (scan_worker ⟨c1FS0, []⟩ "/tmp/w/x.bin" c1Oracle).1.fs "/tmp/w/x.bin"
      = some 0 ∧
    (scan_worker ⟨c1FS0, []⟩ "/tmp/w/x.bin" c1Oracle).2 = WorkerExit.lockdown :=
  C1_lockdown ⟨c1FS0, []⟩ "/tmp/w/x.bin" c1Oracle 0o755 (by decide)
    (fun i _ => rfl)

/-! ## Bounded work queue (threadpool.c, claim C6)

The pool mutex serialises `threadpool_submit` and the dequeue step of
`worker_main`, so pool behaviour is the set of interleavings of the two
atomic critical sections.  `submitted` and `dispatched` are ghost
histories recording the submitted paths and the paths handed to workers,
in order. -/

/-- Pool state: the circular buffer (a map over cell indices), the head,
tail and count registers, and the ghost histories. -/
structure Pool where
  queue : Nat → Option String
  capacity : Nat
  head : Nat
  tail : Nat
  count : Nat
  submitted : List String
  dispatched : List String

/-- The critical section of `threadpool_submit` (threadpool.c lines
218-225): store at head, advance head modulo capacity, bump count. -/
def submitStep (s : Pool) (x : String) : Pool :=
  { s with
    queue := fun i => if i = s.head then some x else s.queue i,
    head := (s.head + 1) % s.capacity,
    count := s.count + 1,
    submitted := s.submitted ++ [x] }

/-- The dequeue critical section of `worker_main` (threadpool.c lines
81-85): take the oldest cell at tail, null it, advance tail modulo
capacity, decrement count. -/
def dequeueStep (s : Pool) : Pool :=
  { s with
    queue := fun i => if i = s.tail then none else s.queue i,
    tail := (s.tail + 1) % s.capacity,
    count := s.count - 1,
    dispatched := s.dispatched ++ [(s.queue s.tail).getD ""] }

/-- Enabled transitions before shutdown: a submit completes only when the
queue is not full (otherwise the producer blocks on `not_full`), a dequeue
only when it is not empty (workers block on `not_empty`). -/
inductive PoolStep : Pool → Pool → Prop
  | submit (s : Pool) (x : String) (h : s.count < s.capacity) :
      PoolStep s (submitStep s x)
  | dequeue (s : Pool) (h : 0 < s.count) : PoolStep s (dequeueStep s)

/-- The freshly created pool (`threadpool_create`). -/
def initPool (cap : Nat) : Pool :=
  ⟨fun _ => none, cap, 0, 0, 0, [], []⟩

/-- States reachable from the fresh pool. -/
inductive PoolReach (cap : Nat) : Pool → Prop
  | init : PoolReach cap (initPool cap)
  | step {s s' : Pool} : PoolReach cap s → PoolStep s s' → PoolReach cap s'

/-- The queue contents in dequeue order. -/
def bufList (s : Pool) : List String :=
  (List.range s.count).map
    (fun i => (s.queue ((s.tail + i) % s.capacity)).getD "")

/-- The ring-buffer invariant. -/
def PoolInv (s : Pool) : Prop :=
  s.count ≤ s.capacity ∧
  s.head = (s.tail + s.count) % s.capacity ∧
  s.tail < s.capacity ∧
  s.submitted = s.dispatched ++ bufList s

theorem mod_ne_of_lt {cap t i j : Nat} (hij : i < j) (hj : j < cap) :
    (t + i) % cap ≠ (t + j) % cap := by
  intro heq
  have hmod : i ≡ j [MOD cap] :=
    Nat.ModEq.add_left_cancel (Nat.ModEq.refl t) heq
  have h2 : i % cap = j % cap := hmod
  rw [Nat.mod_eq_of_lt (lt_trans hij hj), Nat.mod_eq_of_lt hj] at h2
  omega

theorem bufList_submit (s : Pool) (x : String) (hinv : PoolInv s)
    (h : s.count < s.capacity) :
    bufList (submitStep s x) = bufList s ++ [x] := by
  obtain ⟨hcap, hhead, htail, hrel⟩ := hinv
  unfold bufList submitStep
  simp only [List.range_succ, List.map_append, List.map_cons, List.map_nil]
  congr 1
  · apply List.map_congr_left
    intro i hi
    simp only [List.mem_range] at hi
    have hne : (s.tail + i) % s.capacity ≠ s.head := by
      rw [hhead]
      exact mod_ne_of_lt hi h
    simp [hne]
  · have hs : (s.tail + s.count) % s.capacity = s.head := hhead.symm
    simp [hs]

theorem bufList_dequeue (s : Pool) (hinv : PoolInv s) (h : 0 < s.count) :
    bufList s = (s.queue s.tail).getD "" :: bufList (dequeueStep s) := by
  obtain ⟨hcap, hhead, htail, hrel⟩ := hinv
  have hcappos : 0 < s.capacity := lt_of_lt_of_le h hcap
  unfold bufList dequeueStep
  obtain ⟨k, hk⟩ : ∃ k, s.count = k + 1 := ⟨s.count - 1, by omega⟩
  rw [hk]
  simp only [Nat.add_sub_cancel]
  rw [List.range_succ_eq_map]
  simp only [List.map_cons, List.map_map]
  congr 1
  · rw [Nat.add_zero, Nat.mod_eq_of_lt htail]
  · apply List.map_congr_left
    intro i hi
    simp only [List.mem_range] at hi
    simp only [Function.comp]
    have h1 : ((s.tail + 1) % s.capacity + i) % s.capacity =
        (s.tail + (1 + i)) % s.capacity := by
      rw [Nat.mod_add_mod, Nat.add_assoc]
    have hlt : 1 + i < s.capacity := by omega
    have hne : (s.tail + (1 + i)) % s.capacity ≠ s.tail := by
      have h0 := mod_ne_of_lt (t := s.tail) (by omega : (0 : Nat) < 1 + i) hlt
      rw [Nat.add_zero, Nat.mod_eq_of_lt htail] at h0
      exact fun heq => h0 heq.symm
    rw [h1]
    simp only [hne, if_false]
    rw [Nat.add_comm 1 i]

theorem poolInv_step {s s' : Pool} (hinv : PoolInv s) (hs : PoolStep s s') :
    PoolInv s' := by
  cases hs with
  | submit x h =>
    obtain ⟨hcap, hhead, htail, hrel⟩ := hinv
    refine ⟨by simp [submitStep]; omega, ?_, by simpa [submitStep] using htail, ?_⟩
    · show (s.head + 1) % s.capacity = (s.tail + (s.count + 1)) % s.capacity
      rw [hhead, Nat.mod_add_mod, ← Nat.add_assoc]
    · show s.submitted ++ [x] = s.dispatched ++ bufList (submitStep s x)
      rw [bufList_submit s x ⟨hcap, hhead, htail, hrel⟩ h, hrel,
        List.append_assoc]
  | dequeue h =>
    obtain ⟨hcap, hhead, htail, hrel⟩ := hinv
    have hcappos : 0 < s.capacity := lt_of_lt_of_le h hcap
    refine ⟨by simp [dequeueStep]; omega, ?_, ?_, ?_⟩
    · show s.head = ((s.tail + 1) % s.capacity + (s.count - 1)) % s.capacity
      rw [Nat.mod_add_mod, hhead]
      congr 1
      omega
    · show (s.tail + 1) % s.capacity < s.capacity
      exact Nat.mod_lt _ hcappos
    · show s.submitted =
        (s.dispatched ++ [(s.queue s.tail).getD ""]) ++ bufList (dequeueStep s)
      rw [hrel, bufList_dequeue s ⟨hcap, hhead, htail, hrel⟩ h,
        List.append_assoc]
      rfl

theorem poolReach_inv (cap : Nat) (hcap : 0 < cap) (s : Pool)
    (h : PoolReach cap s) : PoolInv s := by
  induction h with
  | init =>
    refine ⟨Nat.zero_le _, ?_, hcap, rfl⟩
    simp [initPool]
  | step _ hs ih => exact poolInv_step ih hs

/-- C6: in every pool state reachable by submits and dequeues before
shutdown, the dispatched history is exactly the submitted history minus
the paths still queued (in order): `submitted = dispatched ++ bufList`,
so items are dequeued in strict FIFO submission order, every dispatched
item was submitted exactly once, and every accepted item is either
dispatched or still in the buffer — never dropped, never duplicated. -/
theorem C6_fifo (cap : Nat) (hcap : 0 < cap) (s : Pool)
    (h : PoolReach cap s) :
    s.submitted = s.dispatched ++ bufList s ∧
    s.dispatched <+: s.submitted := by
  have hinv := poolReach_inv cap hcap s h
  exact ⟨hinv.2.2.2, ⟨bufList s, hinv.2.2.2.symm⟩⟩

def c6Pool : Pool :=
  dequeueStep (submitStep (submitStep (initPool 2) "/tmp/a") "/tmp/b")

/-- C6 witness: two submits and one dequeue on a capacity-2 pool. -/
theorem C6_witness :
    c6Pool.submitted = c6Pool.dispatched ++ bufList c6Pool ∧
    c6Pool.dispatched <+: c6Pool.submitted :=
  C6_fifo 2 (by decide) c6Pool
    (PoolReach.step
      (PoolReach.step
        (PoolReach.step PoolReach.init
          (PoolStep.submit _ "/tmp/a" (by decide)))
        (PoolStep.submit _ "/tmp/b" (by decide)))
      (PoolStep.dequeue _ (by decide)))

/-! ## Filesystem ingestor (monitor.c, claim C7) -/

/-- Outcome of one `inotify_add_watch` call. -/
inductive WatchOutcome
  | ok (wd : Nat)
  | eaccesOrEnoent
  | enospc
  | otherErr
deriving DecidableEq, Repr

/-- One directory entry as seen by readdir. -/
structure DirEnt where
  name : String
  isDir : Bool

/-- The kernel-side oracle: per-path subscription outcome and directory
listing. -/
structure MEnv where
  watch : String → WatchOutcome
  entries : String → List DirEnt

/-- The monitor context fields touched by watch registration
(monitor.c `struct monitor_ctx`), plus a ghost counter of how many times
the one-time ENOSPC warning banner was emitted. -/
structure MCtx where
  wdMap : List (Nat × String)
  watchesAdded : Nat
  watchesFailed : Nat
  enospcLogged : Bool
  enospcWarnCount : Nat

def initMCtx : MCtx := ⟨[], 0, 0, false, 0⟩

/-- Embedding of `add_watch_recursive` (monitor.c lines 121-179): EACCES
and ENOENT are skipped silently; ENOSPC bumps the failure counter, emits
the tunable warning only the first time, and returns 0 without recursing;
other errors return -1; success records the watch, then walks the
non-hidden subdirectories (their return values are ignored) and returns 0.
`fuel` bounds the directory-tree depth. -/
def add_watch_recursive (env : MEnv) : Nat → MCtx → String → MCtx × Int
  | 0, ctx, _ => (ctx, 0)
  | fuel + 1, ctx, dir =>
    match env.watch dir with
    | .eaccesOrEnoent => (ctx, 0)
    | .enospc =>
      if ctx.enospcLogged then
        ({ ctx with watchesFailed := ctx.watchesFailed + 1 }, 0)
      else
        ({ ctx with
            watchesFailed := ctx.watchesFailed + 1
            enospcLogged := true
            enospcWarnCount := ctx.enospcWarnCount + 1 }, 0)
    | .otherErr => (ctx, -1)
    | .ok wd =>
      let ctx1 := { ctx with
                      watchesAdded := ctx.watchesAdded + 1
                      wdMap := (wd, dir) :: ctx.wdMap }
      let children := ((env.entries dir).filter
        (fun e => e.isDir && !(e.name.startsWith "."))).map
        (fun e => dir ++ "/" ++ e.name)
      (children.foldl (fun c d => (add_watch_recursive env fuel c d).1) ctx1, 0)

/-- Embedding of `monitor_create` (monitor.c lines 183-221): `initOk`
covers the calloc and `inotify_init1` outcomes — the only failure paths.
Watch registration walks every root; its return value is only logged. -/
def monitor_create (env : MEnv) (initOk : Bool) (dirs : List String)
    (fuel : Nat) : Option MCtx :=
  if initOk then
    some (dirs.foldl (fun c d => (add_watch_recursive env fuel c d).1) initMCtx)
  else none

/-- The one-time-warning invariant. -/
def WarnInv (ctx : MCtx) : Prop :=
  ctx.enospcWarnCount ≤ 1 ∧ (ctx.enospcLogged = true ↔ ctx.enospcWarnCount = 1)

theorem awr_warnInv (env : MEnv) : ∀ fuel : Nat,
    ∀ ctx dir, WarnInv ctx → WarnInv (add_watch_recursive env fuel ctx dir).1 := by
  intro fuel
  induction fuel with
  | zero => exact fun ctx dir h => h
  | succ fuel ih =>
    have hfold : ∀ (l : List String) (c : MCtx), WarnInv c →
        WarnInv (l.foldl (fun c d => (add_watch_recursive env fuel c d).1) c) := by
      intro l
      induction l with
      | nil => exact fun c h => h
      | cons d ds ihl => exact fun c h => ihl _ (ih c d h)
    intro ctx dir h
    unfold add_watch_recursive
    cases env.watch dir with
    | eaccesOrEnoent => exact h
    | otherErr => exact h
    | enospc =>
      obtain ⟨h1, h2⟩ := h
      cases hl : ctx.enospcLogged with
      | true =>
        simp only [hl, if_true]
        exact ⟨h1, by simpa using h2.mp hl⟩
      | false =>
        have hc0 : ctx.enospcWarnCount = 0 := by
          rcases Nat.lt_or_ge ctx.enospcWarnCount 1 with hlt | hge
          · omega
          · exfalso
            have he1 : ctx.enospcWarnCount = 1 := by omega
            have hx := h2.mpr he1
            rw [hl] at hx
            exact Bool.noConfusion hx
        simp only [hl, Bool.false_eq_true, if_false]
        exact ⟨by simp [hc0], by simp [hc0]⟩
    | ok wd =>
      exact hfold _ _ h

/-- C7: an ENOSPC subscription failure bumps the failure counter, logs the
kernel-tunable banner only on the first such failure of the whole run,
returns 0 so the remaining directories keep being registered, and never
fails `monitor_create` — whenever initialisation succeeded, the component
is created regardless of the watch outcomes, and the banner was emitted at
most once over the entire registration walk. -/
theorem C7_enospc_degradation :
    (∀ (env : MEnv) (ctx : MCtx) (dir : String) (fuel : Nat),
      env.watch dir = WatchOutcome.enospc →
      (add_watch_recursive env (fuel + 1) ctx dir).2 = 0 ∧
      (add_watch_recursive env (fuel + 1) ctx dir).1.watchesFailed =
        ctx.watchesFailed + 1 ∧
      (ctx.enospcLogged = false →
        (add_watch_recursive env (fuel + 1) ctx dir).1.enospcWarnCount =
          ctx.enospcWarnCount + 1 ∧
        (add_watch_recursive env (fuel + 1) ctx dir).1.enospcLogged = true) ∧
      (ctx.enospcLogged = true →
        (add_watch_recursive env (fuel + 1) ctx dir).1.enospcWarnCount =
          ctx.enospcWarnCount)) ∧
    (∀ (env : MEnv) (dirs : List String) (fuel : Nat) (ctx : MCtx),
      monitor_create env true dirs fuel = some ctx →
      ctx.enospcWarnCount ≤ 1) ∧
    (∀ (env : MEnv) (dirs : List String) (fuel : Nat),
      (monitor_create env true dirs fuel).isSome = true) := by
  refine ⟨?_, ?_, ?_⟩
  · intro env ctx dir fuel hw
    unfold add_watch_recursive
    rw [hw]
    cases hl : ctx.enospcLogged with
    | true => simp [hl]
    | false => simp [hl]
  · intro env dirs fuel ctx hc
    have hfold : ∀ (l : List String) (c : MCtx), WarnInv c →
        WarnInv (l.foldl (fun c d => (add_watch_recursive env fuel c d).1) c) := by
      intro l
      induction l with
      | nil => exact fun c h => h
      | cons d ds ihl => exact fun c h => ihl _ (awr_warnInv env fuel c d h)
    have hinit : WarnInv initMCtx := by
      constructor
      · exact Nat.zero_le 1
      · simp [initMCtx]
    have hres := hfold dirs initMCtx hinit
    unfold monitor_create at hc
    simp only [if_true] at hc
    have hc2 : dirs.foldl (fun c d => (add_watch_recursive env fuel c d).1)
        initMCtx = ctx := Option.some.inj hc
    rw [hc2] at hres
    exact hres.1
  · intro env dirs fuel
    simp [monitor_create]

def c7Env : MEnv :=
  ⟨fun d => if d = "/home" then WatchOutcome.enospc else WatchOutcome.ok 1,
   fun _ => []⟩

/-- C7 witness: a run in which the first root hits ENOSPC: the call
returns 0, counts one failure, emits the banner once, and
`monitor_create` still succeeds. -/
theorem C7_witness :
    (add_watch_recursive c7Env 1 initMCtx "/home").2 = 0 ∧
    (add_watch_recursive c7Env 1 initMCtx "/home").1.watchesFailed = 1 ∧
    (add_watch_recursive c7Env 1 initMCtx "/home").1.enospcWarnCount = 1 ∧
    (monitor_create c7Env true ["/home", "/tmp"] 1).isSome = true := by
  have h := C7_enospc_degradation
  have h1 := h.1 c7Env initMCtx "/home" 0 (by decide)
  refine ⟨h1.1, ?_, ?_, h.2.2 c7Env ["/home", "/tmp"] 1⟩
  · rw [h1.2.1]
    rfl
  · rw [(h1.2.2.1 rfl).1]
    rfl

/-! ## IPC server (alert.c, claims C8, C9, C10) -/

/-- ALERT_MSG_MAX from alert.h: maximum JSON message length including the
newline delimiter. -/
def ALERT_MSG_MAX : Nat := 4096

/-- Per-client read accumulator (alert.c `client_slot_t`; the fd is kept
implicit, a slot models one connected client). -/
structure client_slot_t where
  buf : List Char
deriving DecidableEq, Repr

/-- Outcome of the `read` call in `handle_client_data`: peer closed
(0 bytes), EAGAIN, or `bs` bytes delivered (at most the free space). -/
inductive ReadRes
  | closed
  | wouldBlock
  | data (bs : List Char)
deriving DecidableEq, Repr

/-- Result of one `handle_client_data` call: the new slot, whether the
connection stays open (`return 0` vs `-1`), whether the overflow warning
was logged, and the complete nonempty lines dispatched to
`process_client_message`, in order. -/
structure HcdOut where
  slot : client_slot_t
  keepOpen : Bool
  overflowWarn : Bool
  msgs : List (List Char)
deriving DecidableEq, Repr

/-- The strchr line loop of `handle_client_data` (alert.c lines 177-193):
split off every complete newline-terminated line, dispatching the nonempty
ones, and keep the trailing partial data.  `cur` is the reversed partial
line accumulated so far. -/
def splitGo (cur : List Char) : List Char → List (List Char) × List Char
  | [] => ([], cur.reverse)
  | c :: t =>
    if c = '\n' then
      let r := splitGo [] t
      (if cur = [] then r.1 else cur.reverse :: r.1, r.2)
    else splitGo (c :: cur) t

def splitLines (l : List Char) : List (List Char) × List Char := splitGo [] l

/-- Embedding of `handle_client_data` (alert.c lines 158-196): when the
free space `ALERT_MSG_MAX - buf_len - 1` is not positive the accumulator
is reset with a warning and the call returns with the connection kept; a
zero read closes the client; EAGAIN keeps it; otherwise the read bytes are
appended and all complete lines are processed. -/
def handle_client_data (c : client_slot_t) (r : ReadRes) : HcdOut :=
  if ALERT_MSG_MAX ≤ c.buf.length + 1 then ⟨⟨[]⟩, true, true, []⟩
  else
    match r with
    | .closed => ⟨c, false, false, []⟩
    | .wouldBlock => ⟨c, true, false, []⟩
    | .data bs =>
      let sp := splitLines (c.buf ++ bs)
      ⟨⟨sp.2⟩, true, false, sp.1⟩

/-- The per-slot step of `alert_server_service` (alert.c lines 312-318):
only the slot being serviced is replaced. -/
def serviceSlotUpdate (slots : List client_slot_t) (i : Nat) (r : ReadRes) :
    List client_slot_t :=
  match slots[i]? with
  | none => slots
  | some c => slots.set i (handle_client_data c r).slot

def c8Chunk1 : List Char := List.replicate 4095 'a'

def c8o1 : HcdOut := handle_client_data ⟨[]⟩ (ReadRes.data c8Chunk1)

def c8o2 : HcdOut := handle_client_data c8o1.slot (ReadRes.data ['\n'])

def c8o3 : HcdOut := handle_client_data c8o2.slot (ReadRes.data ['\n'])

/-- C8 counterexample: a message of exactly 4096 bytes including the
newline (so NOT exceeding the claimed limit) is always discarded: its 4095
content bytes fill the accumulator, the next call resets the buffer before
reading the newline, and the trailing newline then yields only an empty
line — no message is ever dispatched. -/
theorem splitGo_no_newline :
    ∀ (l cur : List Char), '\n' ∉ l →
    splitGo cur l = ([], cur.reverse ++ l) := by
  intro l
  induction l with
  | nil =>
    intro cur _
    simp [splitGo]
  | cons c t ih =>
    intro cur h
    have hc : c ≠ '\n' := fun habs => h (by simp [habs])
    have ht : '\n' ∉ t := fun hm => h (by simp [hm])
    rw [splitGo, if_neg hc, ih (c :: cur) ht]
    simp

theorem c8Chunk1_length : c8Chunk1.length = 4095 := by
  rw [show c8Chunk1 = List.replicate 4095 'a' from rfl]
  simp only [List.length_replicate]

theorem c8o1_eq : c8o1 = ⟨⟨c8Chunk1⟩, true, false, []⟩ := by
  unfold c8o1 handle_client_data
  rw [if_neg (by rw [show (⟨[]⟩ : client_slot_t).buf.length = 0 from rfl]; decide)]
  have hnn : '\n' ∉ c8Chunk1 := by
    intro hm
    have := List.eq_of_mem_replicate hm
    exact absurd this (by decide)
  show (⟨⟨(splitLines ([] ++ c8Chunk1)).2⟩, true, false,
    (splitLines ([] ++ c8Chunk1)).1⟩ : HcdOut) = _
  rw [List.nil_append]
  unfold splitLines
  rw [splitGo_no_newline c8Chunk1 [] hnn]
  simp

theorem c8o2_eq : c8o2 = ⟨⟨[]⟩, true, true, []⟩ := by
  unfold c8o2
  rw [c8o1_eq]
  unfold handle_client_data
  rw [if_pos]
  show ALERT_MSG_MAX ≤ c8Chunk1.length + 1
  rw [c8Chunk1_length]
  decide

/-- C8 counterexample: a message of exactly 4096 bytes including the
newline (so NOT exceeding the claimed limit) is always discarded: its 4095
content bytes fill the accumulator, the next call resets the buffer before
reading the newline, and the trailing newline then yields only an empty
line — no message is ever dispatched. -/
theorem C8_counterexample :
    (c8Chunk1 ++ ['\n']).length = ALERT_MSG_MAX ∧
    c8o1.msgs = [] ∧ c8o2.msgs = [] ∧ c8o3.msgs = [] ∧
    c8o2.overflowWarn = true ∧ c8o2.slot.buf = [] := by
  refine ⟨?_, ?_, ?_, ?_, ?_, ?_⟩
  · simp only [List.length_append, c8Chunk1_length]
    rfl
  · rw [c8o1_eq]
  · rw [c8o2_eq]
  · unfold c8o3
    rw [c8o2_eq]
    decide
  · rw [c8o2_eq]
  · rw [c8o2_eq]

theorem splitGo_rest_no_newline :
    ∀ (l cur : List Char), '\n' ∉ cur → '\n' ∉ (splitGo cur l).2 := by
  intro l
  induction l with
  | nil =>
    intro cur h hm
    rw [splitGo] at hm
    exact h (List.mem_reverse.mp hm)
  | cons c t ih =>
    intro cur h
    by_cases hc : c = '\n'
    · rw [splitGo, if_pos hc]
      exact ih [] (by simp)
    · rw [splitGo, if_neg hc]
      refine ih (c :: cur) ?_
      intro hm
      rcases List.mem_cons.mp hm with rfl | hm
      · exact hc rfl
      · exact h hm

theorem splitGo_complete :
    ∀ (x cur : List Char), '\n' ∉ x →
    splitGo cur (x ++ ['\n']) =
      (if cur.reverse ++ x = [] then [] else [cur.reverse ++ x], []) := by
  intro x
  induction x with
  | nil =>
    intro cur _
    rw [List.nil_append, splitGo, if_pos rfl]
    rw [show splitGo [] [] = ([], []) from rfl]
    by_cases hcur : cur = []
    · subst hcur
      simp
    · have : cur.reverse ≠ [] := by simpa using hcur
      simp [hcur, this]
  | cons c t ih =>
    intro cur h
    have hc : c ≠ '\n' := fun habs => h (by simp [habs])
    have ht : '\n' ∉ t := fun hm => h (by simp [hm])
    rw [List.cons_append, splitGo, if_neg hc, ih (c :: cur) ht]
    have hrw : (c :: cur).reverse ++ t = cur.reverse ++ c :: t := by
      simp
    rw [hrw]

/-- C8 (amended): the framing cutoff is 4095 bytes including the newline,
not 4096.  (a) When the accumulator holds 4095 bytes (its maximum), any
further service call resets it with a warning, keeps the connection open,
dispatches nothing, and (b) the warning fires only in that full state;
(c) the accumulator never retains a newline, so the discarded bytes are
always a partial frame of 4095 bytes — only frames of 4096 bytes or more
including the terminator are ever discarded; (d) a frame of at most 4095
bytes including its newline is dispatched intact the moment its newline
arrives; (e) servicing one slot leaves every other client slot unchanged. -/
theorem C8_framing_amended :
    (∀ (c : client_slot_t) (r : ReadRes), 4095 ≤ c.buf.length →
      handle_client_data c r = ⟨⟨[]⟩, true, true, []⟩) ∧
    (∀ (c : client_slot_t) (r : ReadRes),
      (handle_client_data c r).overflowWarn = true → 4095 ≤ c.buf.length) ∧
    (∀ (c : client_slot_t) (r : ReadRes), '\n' ∉ c.buf →
      '\n' ∉ (handle_client_data c r).slot.buf) ∧
    (∀ (c : client_slot_t) (m : List Char), '\n' ∉ c.buf → '\n' ∉ m →
      c.buf.length + m.length + 1 ≤ 4095 → c.buf ++ m ≠ [] →
      (handle_client_data c (ReadRes.data (m ++ ['\n']))).msgs = [c.buf ++ m] ∧
      (handle_client_data c (ReadRes.data (m ++ ['\n']))).slot.buf = [] ∧
      (handle_client_data c (ReadRes.data (m ++ ['\n']))).keepOpen = true) ∧
    (∀ (slots : List client_slot_t) (i : Nat) (r : ReadRes) (j : Nat), j ≠ i →
      (serviceSlotUpdate slots i r)[j]? = slots[j]?) := by
  refine ⟨?_, ?_, ?_, ?_, ?_⟩
  · intro c r h
    have h2 : ALERT_MSG_MAX ≤ c.buf.length + 1 := by
      rw [show ALERT_MSG_MAX = 4096 from rfl]
      omega
    simp [handle_client_data, h2]
  · intro c r h
    by_cases h2 : ALERT_MSG_MAX ≤ c.buf.length + 1
    · rw [show ALERT_MSG_MAX = 4096 from rfl] at h2
      omega
    · exfalso
      unfold handle_client_data at h
      rw [if_neg h2] at h
      cases r with
      | closed => simp at h
      | wouldBlock => simp at h
      | data bs => simp at h
  · intro c r h
    by_cases h2 : ALERT_MSG_MAX ≤ c.buf.length + 1
    · simp [handle_client_data, h2]
    · unfold handle_client_data
      rw [if_neg h2]
      cases r with
      | closed => exact h
      | wouldBlock => exact h
      | data bs =>
        show '\n' ∉ (splitLines (c.buf ++ bs)).2
        exact splitGo_rest_no_newline _ [] (by simp)
  · intro c m hb hm hlen hne
    have h2 : ¬ ALERT_MSG_MAX ≤ c.buf.length + 1 := by
      rw [show ALERT_MSG_MAX = 4096 from rfl]
      omega
    have hx : '\n' ∉ c.buf ++ m := by
      intro habs
      rcases List.mem_append.mp habs with habs | habs
      · exact hb habs
      · exact hm habs
    have hsp : splitLines (c.buf ++ (m ++ ['\n'])) = ([c.buf ++ m], []) := by
      unfold splitLines
      rw [← List.append_assoc, splitGo_complete (c.buf ++ m) [] hx]
      simp [hne]
    unfold handle_client_data
    rw [if_neg h2]
    simp [hsp]
  · intro slots i r j hj
    unfold serviceSlotUpdate
    cases hs : slots[i]? with
    | none => rfl
    | some c => exact List.getElem?_set_ne (fun habs => hj habs.symm)

/-- C8 witness: the amended reset clause at a concrete full slot, and the
delivery clause for a concrete 6-byte frame. -/
theorem C8_witness :
    handle_client_data ⟨List.replicate 4095 'b'⟩ ReadRes.wouldBlock
      = ⟨⟨[]⟩, true, true, []⟩ ∧
    (handle_client_data ⟨"pre".data⟩
      (ReadRes.data ("ab".data ++ ['\n']))).msgs = ["preab".data] := by
  constructor
  · refine C8_framing_amended.1 ⟨List.replicate 4095 'b'⟩ ReadRes.wouldBlock ?_
    show 4095 ≤ (List.replicate 4095 'b').length
    simp only [List.length_replicate]
    exact Nat.le_refl 4095
  · exact (C8_framing_amended.2.2.2.1 ⟨"pre".data⟩ "ab".data
      (by decide) (by decide) (by decide) (by decide)).1

/-! ## GUI command dispatch and broadcast (main.c / alert.c, claims C9, C10) -/

/-- Alert event types (alert.h `alert_type_t`). -/
inductive alert_type_t
  | scan_clean
  | scan_threat
  | quarantine
  | restore
  | delete
  | status
  | sync_state
deriving DecidableEq, Repr

/-- Embedding of `alert_type_str` (alert.c lines 60-72). -/
def alert_type_str : alert_type_t → String
  | .scan_clean => "scan_clean"
  | .scan_threat => "scan_threat"
  | .quarantine => "quarantine"
  | .restore => "restore"
  | .delete => "delete"
  | .status => "status"
  | .sync_state => "sync_state"

/-- A targeted sync reply (`alert_send_to_client` payloads built in
`on_gui_command`). -/
inductive SyncMsg
  | entry (e : quarantine_entry_t)
  | complete (count : Nat)
deriving DecidableEq, Repr

/-- One IPC emission: a targeted write to a single client fd, or an
`alert_broadcast` to all clients. -/
inductive Emit
  | send (fd : Nat) (m : SyncMsg)
  | bcast (t : alert_type_t) (filename threat details : Option String)
deriving DecidableEq, Repr

/-- Embedding of `on_gui_command` (main.c lines 295-373): `sync_state`
sends one `sync_entry` per `quarantine_list` snapshot entry to the
requesting client only, then one `sync_complete` (with the literal count
0); `restore` and `delete` with an id run the store operation and
broadcast the outcome; anything else only logs a warning. -/
def on_gui_command (st : QState) (client_fd : Nat) (action : String)
    (id : Option String) (rOk : Bool) (cr : CopyRes) : QState × List Emit :=
  if action = "sync_state" then
    (st, ((quarantine_list st).map
      (fun e => Emit.send client_fd (SyncMsg.entry e))) ++
      [Emit.send client_fd (SyncMsg.complete 0)])
  else if action = "restore" then
    match id with
    | some i =>
      match quarantine_restore st i rOk cr with
      | (st2, true) =>
        (st2, [Emit.bcast .restore (some i) none
          (some "File restored from quarantine")])
      | (st2, false) =>
        (st2, [Emit.bcast .status (some i) none (some "Restore failed")])
    | none => (st, [])
  else if action = "delete" then
    match id with
    | some i =>
      match quarantine_delete st i with
      | (st2, true) =>
        (st2, [Emit.bcast .delete (some i) none
          (some "File permanently deleted")])
      | (st2, false) =>
        (st2, [Emit.bcast .status (some i) none (some "Delete failed")])
    | none => (st, [])
  else (st, [])

/-- C9: a `sync_state` command makes the daemon send, to the requesting
client only, exactly one `sync_entry` per manifest entry in manifest
order, followed by exactly one `sync_complete`; the store is untouched and
nothing is broadcast, so no other connected client receives any of these
messages. -/
theorem C9_sync_state (st : QState) (fd : Nat) (id : Option String)
    (rOk : Bool) (cr : CopyRes) :
    (on_gui_command st fd "sync_state" id rOk cr).2 =
      ((quarantine_list st).map (fun e => Emit.send fd (SyncMsg.entry e))) ++
        [Emit.send fd (SyncMsg.complete 0)] ∧
    (on_gui_command st fd "sync_state" id rOk cr).1 = st ∧
    ∀ m ∈ (on_gui_command st fd "sync_state" id rOk cr).2,
      ∃ msg, m = Emit.send fd msg := by
  refine ⟨rfl, rfl, ?_⟩
  intro m hm
  show ∃ msg, m = Emit.send fd msg
  have hm2 : m ∈ ((quarantine_list st).map
      (fun e => Emit.send fd (SyncMsg.entry e))) ++
      [Emit.send fd (SyncMsg.complete 0)] := hm
  rcases List.mem_append.mp hm2 with h | h
  · obtain ⟨e, _, rfl⟩ := List.mem_map.mp h
    exact ⟨SyncMsg.entry e, rfl⟩
  · rcases List.mem_singleton.mp h with rfl
    exact ⟨SyncMsg.complete 0, rfl⟩

/-- Embedding of the `alert_broadcast` message formatting (alert.c lines
326-346): the JSON object terminated by a newline; NULL string arguments
are rendered empty. -/
def mkAlertMsg (t : alert_type_t) (filename threat details : Option String)
    (timebuf : String) : List Char :=
  ("\x7b\"event\":\"" ++ alert_type_str t ++
   "\",\"filename\":\"" ++ filename.getD "" ++
   "\",\"threat\":\"" ++ threat.getD "" ++
   "\",\"details\":\"" ++ details.getD "" ++
   "\",\"timestamp\":\"" ++ timebuf ++ "\"\x7d\n").data

/-- Embedding of `alert_broadcast` (alert.c lines 321-379): when snprintf
reports that the formatted message does not fit the 4096-byte buffer
(`n <= 0 || n >= sizeof(msg)`), the function returns before taking the
client-table mutex, writing to nobody; otherwise it writes the message to
every connected client.  The return type carries no error channel — the C
function returns void.  The result is the list of performed writes. -/
def alert_broadcast (clients : List Nat) (t : alert_type_t)
    (filename threat details : Option String) (timebuf : String) :
    List (Nat × List Char) :=
  let msg := mkAlertMsg t filename threat details timebuf
  if msg.length = 0 ∨ ALERT_MSG_MAX ≤ msg.length then []
  else clients.map (fun fd => (fd, msg))

/-- C10: when the formatted JSON message including its newline does not
fit in ALERT_MSG_MAX = 4096 bytes, `alert_broadcast` performs no write at
all — every connected client silently misses the alert — and no error is
reported to the caller (the function returns void). -/
theorem C10_oversize_broadcast (clients : List Nat) (t : alert_type_t)
    (filename threat details : Option String) (timebuf : String)
    (h : ALERT_MSG_MAX ≤ (mkAlertMsg t filename threat details timebuf).length) :
    alert_broadcast clients t filename threat details timebuf = [] := by
  unfold alert_broadcast
  rw [if_pos (Or.inr h)]

/-- C10 witness: a 5000-byte filename pushes the message over the limit
and nobody receives the broadcast. -/
theorem C10_witness :
    ALERT_MSG_MAX ≤ (mkAlertMsg alert_type_t.scan_threat
      (some (String.mk (List.replicate 5000 'a'))) none none "").length ∧
    alert_broadcast [3, 4, 5] alert_type_t.scan_threat
      (some (String.mk (List.replicate 5000 'a'))) none none "" = [] := by
  have h : ALERT_MSG_MAX ≤ (mkAlertMsg alert_type_t.scan_threat
      (some (String.mk (List.replicate 5000 'a'))) none none "").length := by
    unfold mkAlertMsg
    simp only [String.data_append, List.length_append, Option.getD_some,
      List.length_replicate]
    decide
  exact ⟨h, C10_oversize_broadcast [3, 4, 5] alert_type_t.scan_threat
    (some (String.mk (List.replicate 5000 'a'))) none none "" h⟩

end Sentinel
